import Mathlib

/-!
Verification of the LocalCache in-process keyed store (src/src/index.ts).

The TypeScript class is shallowly embedded as pure functions over an
explicit `CacheState`.  JavaScript runtime features are modelled as
follows:

* `NodeJS.Timeout` handles are natural-number ids drawn from a fresh
  counter `nextId`; the runtime's table of armed, not-yet-fired timers is
  the `pending` list (id, key of the deletion callback).  `clearTimeout`
  removes an id from `pending`; firing a timer removes it and runs its
  `del key` callback.
* JavaScript object/array/map/set values compare by reference identity,
  so every compound `CacheData` constructor carries an allocation id
  (`Nat`); internal allocations (`new Map()`, `new Set()`, `[]`) draw ids
  from the `nextRef` counter.  Primitive values compare by value, which
  together with reference identity on compounds is JavaScript's
  SameValueZero relation used by `Set` and `Map`.
* `Map<string, _>` insertion-order semantics are modelled by association
  lists where `Map.set` updates in place or appends (`jsMapSet`).
* Methods that `throw` return `Except CacheErrors _`; the source throws
  plain `Error("Invalid key")` in `setTTL`/`persist`, which the spec's
  error taxonomy identifies with `InvalidKey`.
-/

inductive CacheErrors where
  | InvalidKeyType
  | OutOfIndex
  | InvalidKey


inductive CacheData where
  | str : String → CacheData
  | num : Int → CacheData
  | boolV : Bool → CacheData
  | buf : Nat → List Nat → CacheData
  | obj : Nat → List (String × CacheData) → CacheData
  | hmap : Nat → List (String × CacheData) → CacheData
  | setV : Nat → List CacheData → CacheData
  | arr : Nat → List CacheData → CacheData


/-- JavaScript's SameValueZero relation restricted to `CacheData`:
primitives compare by value, compound values by reference identity.
This is the equality used by the runtime `Set` in `sAdd`/`sIsMember`. -/
def sameValueZero : CacheData → CacheData → Bool
  | .str a, .str b => a == b
  | .num a, .num b => a == b
  | .boolV a, .boolV b => a == b
  | .buf ra _, .buf rb _ => ra == rb
  | .obj ra _, .obj rb _ => ra == rb
  | .hmap ra _, .hmap rb _ => ra == rb
  | .setV ra _, .setV rb _ => ra == rb
  | .arr ra _, .arr rb _ => ra == rb
  | _, _ => false

/-- True exactly on the `arr` variant (the `Array.isArray` test). -/
def CacheData.isArr : CacheData → Bool
  | .arr _ _ => true
  | _ => false

/-- One stored entry: the `{ ttl, value, timeout }` record of the source. -/
structure Entry where
  ttl : Int
  value : CacheData
  timeout : Option Nat


/-- The whole observable state: the `data` map of the class plus the
modelled runtime (armed timers, fresh-id counters) and the `_TTL`
default installed by the constructor. -/
structure CacheState where
  data : List (String × Entry)
  pending : List (Nat × String)
  nextId : Nat
  nextRef : Nat
  TTLdefault : Int


/-- JavaScript `Map.get`. -/
def jsMapGet {α : Type} : List (String × α) → String → Option α
  | [], _ => none
  | (k', v) :: rest, k => if k' == k then some v else jsMapGet rest k

/-- JavaScript `Map.set`: update in place, preserving insertion order,
or append a new binding. -/
def jsMapSet {α : Type} : List (String × α) → String → α → List (String × α)
  | [], k, v => [(k, v)]
  | (k', v') :: rest, k, v =>
      if k' == k then (k, v) :: rest else (k', v') :: jsMapSet rest k v

/-- JavaScript `Map.delete`. -/
def jsMapDelete {α : Type} : List (String × α) → String → List (String × α)
  | [], _ => []
  | (k', v') :: rest, k =>
      if k' == k then rest else (k', v') :: jsMapDelete rest k

/-- The constructor: `this._TTL = options?.TTL ?? 0` over an empty map. -/
def mkCache (TTLopt : Option Int) : CacheState :=
  { data := [], pending := [], nextId := 0, nextRef := 0,
    TTLdefault := TTLopt.getD 0 }

namespace LocalCache

/-- `handleTTL`: arm a deletion timer when `ttl > 0`, else decline. -/
def handleTTL (key : String) (ttl : Int) (s : CacheState) :
    Option Nat × CacheState :=
  if ttl ≤ 0 then (none, s)
  else (some s.nextId,
        { s with pending := s.pending ++ [(s.nextId, key)],
                 nextId := s.nextId + 1 })

/-- `clearTimeout`: a no-op on `undefined` or an already-cleared id. -/
def jsClearTimeout (t : Option Nat) (s : CacheState) : CacheState :=
  match t with
  | none => s
  | some id => { s with pending := s.pending.filter (fun p => !(p.1 == id)) }

/-- `del(...keys)`: removes the keys; does not touch timers. -/
def del (keys : List String) (s : CacheState) : CacheState :=
  keys.foldl (fun st k => { st with data := jsMapDelete st.data k }) s

/-- The runtime firing an armed timer: the id leaves the pending table and
its callback `del key` runs.  Cleared or unknown ids do nothing. -/
def fireTimer (id : Nat) (s : CacheState) : CacheState :=
  match s.pending.find? (fun p => p.1 == id) with
  | some p =>
      del [p.2] { s with pending := s.pending.filter (fun q => !(q.1 == id)) }
  | none => s

/-- `set(key, value, ttl = this._TTL)`. -/
def set (key : String) (value : CacheData) (ttl : Int) (s : CacheState) :
    CacheState :=
  let p := handleTTL key ttl s
  { p.2 with
    data := jsMapSet p.2.data key { ttl := ttl, value := value, timeout := p.1 } }

/-- `get(key)`. -/
def get (key : String) (s : CacheState) : Option CacheData :=
  match jsMapGet s.data key with
  | some e => some e.value
  | none => none

/-- `exists(key)`. -/
def existsKey (key : String) (s : CacheState) : Bool :=
  (jsMapGet s.data key).isSome

/-- `getTTL(key)`: the stored nominal ttl, `-1` when absent. -/
def getTTL (key : String) (s : CacheState) : Int :=
  match jsMapGet s.data key with
  | some e => e.ttl
  | none => -1

/-- `setTTL(key, ttl)`. -/
def setTTL (key : String) (ttl : Int) (s : CacheState) :
    Except CacheErrors CacheState :=
  match jsMapGet s.data key with
  | none => .error .InvalidKey
  | some e =>
      let s1 := jsClearTimeout e.timeout s
      let p := handleTTL key ttl s1
      .ok { p.2 with
            data := jsMapSet p.2.data key
                      { ttl := ttl, value := e.value, timeout := p.1 } }

/-- `persist(key)`: clears the timer and zeroes the stored ttl.  The
source leaves the (now cleared) timeout id in the entry. -/
def persist (key : String) (s : CacheState) : Except CacheErrors CacheState :=
  match jsMapGet s.data key with
  | none => .error .InvalidKey
  | some e =>
      let s1 := jsClearTimeout e.timeout s
      .ok { s1 with data := jsMapSet s1.data key { e with ttl := 0 } }

/-- `mSet(object)`: every pair stored with `ttl: 0, timeout: undefined`. -/
def mSet (object : List (String × CacheData)) (s : CacheState) : CacheState :=
  object.foldl
    (fun st kv =>
      { st with
        data := jsMapSet st.data kv.1
                  { ttl := 0, value := kv.2, timeout := none } })
    s

/-- `mGet(...keys)`. -/
def mGet (keys : List String) (s : CacheState) : List (Option CacheData) :=
  keys.map (fun k =>
    match jsMapGet s.data k with
    | some e => some e.value
    | none => none)

/-- `hSet(key, object, ttl = this._TTL)`: merge into an existing `Map`
value, else install a fresh entry (new timer per `ttl`, new empty `Map`)
and merge into that. -/
def hSet (key : String) (object : List (String × CacheData)) (ttl : Int)
    (s : CacheState) : CacheState :=
  match jsMapGet s.data key with
  | some ⟨ettl, .hmap r m, eto⟩ =>
      { s with
        data := jsMapSet s.data key
          ⟨ettl,
           .hmap r (object.foldl (fun acc fv => jsMapSet acc fv.1 fv.2) m),
           eto⟩ }
  | _ =>
      let p := handleTTL key ttl s
      let r := p.2.nextRef
      let s2 := { p.2 with nextRef := p.2.nextRef + 1 }
      { s2 with
        data := jsMapSet s2.data key
          ⟨ttl,
           .hmap r (object.foldl (fun acc fv => jsMapSet acc fv.1 fv.2) []),
           p.1⟩ }

/-- `hGet(key, field)`. -/
def hGet (key field : String) (s : CacheState) : Option CacheData :=
  match jsMapGet s.data key with
  | some ⟨_, .hmap _ m, _⟩ => jsMapGet m field
  | _ => none

/-- `hGetAll(key)`: the field list in `Map` insertion order, as
`Object.fromEntries` produces it. -/
def hGetAll (key : String) (s : CacheState) :
    Option (List (String × CacheData)) :=
  match jsMapGet s.data key with
  | some ⟨_, .hmap _ m, _⟩ => some m
  | _ => none

/-- JavaScript `Set.add`: appended unless an element equal under
SameValueZero is already present. -/
def jsSetAdd (elems : List CacheData) (m : CacheData) : List CacheData :=
  if elems.any (fun e => sameValueZero e m) then elems else elems ++ [m]

/-- `sAdd(key, members)`: on a missing or non-`Set` key the source arms
the timer inline from `this._TTL` and installs a fresh `Set`, then adds
every member. -/
def sAdd (key : String) (members : List CacheData) (s : CacheState) :
    CacheState :=
  match jsMapGet s.data key with
  | some ⟨ettl, .setV r elems, eto⟩ =>
      { s with
        data := jsMapSet s.data key
          ⟨ettl, .setV r (members.foldl jsSetAdd elems), eto⟩ }
  | _ =>
      let t := if s.TTLdefault > 0 then some s.nextId else none
      let s1 :=
        if s.TTLdefault > 0 then
          { s with pending := s.pending ++ [(s.nextId, key)],
                   nextId := s.nextId + 1 }
        else s
      let r := s1.nextRef
      let s2 := { s1 with nextRef := s1.nextRef + 1 }
      { s2 with
        data := jsMapSet s2.data key
          ⟨s.TTLdefault, .setV r (members.foldl jsSetAdd []), t⟩ }

/-- `sIsMember(key, member)`: `Set.has`, i.e. SameValueZero membership. -/
def sIsMember (key : String) (member : CacheData) (s : CacheState) : Bool :=
  match jsMapGet s.data key with
  | some ⟨_, .setV _ elems, _⟩ => elems.any (fun e => sameValueZero e member)
  | _ => false

/-- `lPush(key, values)`: missing key gets a fresh entry with the default
ttl and its timer; a non-array value is reset to a fresh `[]` with the
rest of the entry untouched; then the values are appended. -/
def lPush (key : String) (values : List CacheData) (s : CacheState) :
    CacheState :=
  match jsMapGet s.data key with
  | some ⟨ettl, .arr r l, eto⟩ =>
      { s with data := jsMapSet s.data key ⟨ettl, .arr r (l ++ values), eto⟩ }
  | some ⟨ettl, _, eto⟩ =>
      let r := s.nextRef
      { s with nextRef := s.nextRef + 1,
               data := jsMapSet s.data key ⟨ettl, .arr r values, eto⟩ }
  | none =>
      let p := handleTTL key s.TTLdefault s
      let r := p.2.nextRef
      { p.2 with nextRef := p.2.nextRef + 1,
                 data := jsMapSet p.2.data key
                           ⟨s.TTLdefault, .arr r values, p.1⟩ }

/-- `lPop(key)`: `Array.prototype.pop` on an array value, otherwise
nothing happens. -/
def lPop (key : String) (s : CacheState) : CacheState :=
  match jsMapGet s.data key with
  | some ⟨ettl, .arr r l, eto⟩ =>
      { s with data := jsMapSet s.data key ⟨ettl, .arr r l.dropLast, eto⟩ }
  | _ => s

/-- `lLen(key)`. -/
def lLen (key : String) (s : CacheState) : Except CacheErrors Int :=
  match jsMapGet s.data key with
  | none => .error .InvalidKey
  | some ⟨_, .arr _ l, _⟩ => .ok (l.length : Int)
  | some _ => .error .InvalidKeyType

/-- JavaScript element assignment on an array.  A negative index becomes
an ordinary string-keyed property that no array element read in the
claims can observe, so the element list is unchanged there. -/
def jsArraySet (l : List CacheData) (i : Int) (v : CacheData) :
    List CacheData :=
  if 0 ≤ i then l.set i.toNat v else l

/-- `lSet(key, index, value)`: only the upper bound
`index > length - 1` is checked. -/
def lSet (key : String) (index : Int) (value : CacheData) (s : CacheState) :
    Except CacheErrors CacheState :=
  match jsMapGet s.data key with
  | none => .error .InvalidKey
  | some ⟨ettl, .arr r l, eto⟩ =>
      if (l.length : Int) - 1 < index then .error .OutOfIndex
      else
        .ok { s with
              data := jsMapSet s.data key
                        ⟨ettl, .arr r (jsArraySet l index value), eto⟩ }
  | some _ => .error .InvalidKeyType

/-- `Array.prototype.splice(i, 1)`: the start position is clamped to
`max (n + i) 0` for negative `i` and `min i n` otherwise, and one
element is removed there. -/
def jsSpliceRemoveOne (l : List CacheData) (i : Int) : List CacheData :=
  let n : Int := l.length
  let start := if i < 0 then max (n + i) 0 else min i n
  l.eraseIdx start.toNat

/-- `lRemIndex(key, index)`: same upper-bound-only check as `lSet`,
then `splice(index, 1)`. -/
def lRemIndex (key : String) (index : Int) (s : CacheState) :
    Except CacheErrors CacheState :=
  match jsMapGet s.data key with
  | none => .error .InvalidKey
  | some ⟨ettl, .arr r l, eto⟩ =>
      if (l.length : Int) - 1 < index then .error .OutOfIndex
      else
        .ok { s with
              data := jsMapSet s.data key
                        ⟨ettl, .arr r (jsSpliceRemoveOne l index), eto⟩ }
  | some _ => .error .InvalidKeyType

/-- JavaScript line terminators, the characters the regexp dot refuses
to match when the `s` flag is absent. -/
def isLineTerm (c : Char) : Bool :=
  c == '\n' || c == '\r' || c == '\u2028' || c == '\u2029'

/-- The matcher denoted by the regexp `scan` builds: the pattern with
every regexp metacharacter escaped and every `*` turned into `.*`,
anchored on both sides.  Stars therefore step only over characters the
unflagged dot accepts, i.e. non-line-terminators. -/
def globMatch : List Char → List Char → Bool
  | [], [] => true
  | [], _ :: _ => false
  | p :: ps, [] => p == '*' && globMatch ps []
  | p :: ps, k :: ks =>
      if p == '*' then
        globMatch ps (k :: ks) || (!(isLineTerm k) && globMatch (p :: ps) ks)
      else
        p == k && globMatch ps ks
termination_by ps ks => (ps.length, ks.length)

/-- `scan(pattern)`: filter the keys, in `Map` insertion order, by the
built regexp. -/
def scan (pattern : String) (s : CacheState) : List String :=
  (s.data.map Prod.fst).filter (fun k => globMatch pattern.toList k.toList)

end LocalCache

mutual
/-- Modelled from the spec: the "deep value comparison" the spec assigns
to Set members, read as structural equality of the payloads with
reference ids ignored.  The source has no such comparison; this
spec-side relation is only compared against the code's SameValueZero
behaviour. -/
def specDeepValueEq : CacheData → CacheData → Bool
  | .str a, .str b => a == b
  | .num a, .num b => a == b
  | .boolV a, .boolV b => a == b
  | .buf _ a, .buf _ b => a == b
  | .obj _ a, .obj _ b => specDeepValueEqFields a b
  | .hmap _ a, .hmap _ b => specDeepValueEqFields a b
  | .setV _ a, .setV _ b => specDeepValueEqList a b
  | .arr _ a, .arr _ b => specDeepValueEqList a b
  | _, _ => false

/-- Pointwise deep comparison of element lists. -/
def specDeepValueEqList : List CacheData → List CacheData → Bool
  | [], [] => true
  | a :: xs, b :: ys => specDeepValueEq a b && specDeepValueEqList xs ys
  | _, _ => false

/-- Pointwise deep comparison of field lists. -/
def specDeepValueEqFields :
    List (String × CacheData) → List (String × CacheData) → Bool
  | [], [] => true
  | (fa, a) :: xs, (fb, b) :: ys =>
      fa == fb && specDeepValueEq a b && specDeepValueEqFields xs ys
  | _, _ => false
end

/-- Modelled from the spec: the claimed glob semantics, in which a `*`
matches any substring whatsoever and every other pattern character
stands for itself. -/
inductive SpecGlobMatch : List Char → List Char → Prop where
  | nil : SpecGlobMatch [] []
  | lit {c : Char} {ps ks : List Char} :
      c ≠ '*' → SpecGlobMatch ps ks → SpecGlobMatch (c :: ps) (c :: ks)
  | star {ps pre post : List Char} :
      SpecGlobMatch ps post → SpecGlobMatch ('*' :: ps) (pre ++ post)

/-- The glob semantics the built regexp actually implements: as
`SpecGlobMatch`, except that a `*` only absorbs characters that are not
line terminators (the unflagged regexp dot skips those). -/
inductive LineGlobMatch : List Char → List Char → Prop where
  | nil : LineGlobMatch [] []
  | lit {c : Char} {ps ks : List Char} :
      c ≠ '*' → LineGlobMatch ps ks → LineGlobMatch (c :: ps) (c :: ks)
  | star {ps pre post : List Char} :
      (∀ c ∈ pre, LocalCache.isLineTerm c = false) → LineGlobMatch ps post →
      LineGlobMatch ('*' :: ps) (pre ++ post)

/-- Model-side observation: the element list of the Set stored at a key,
empty when the key is absent or holds another variant. -/
def storedSetElems (key : String) (s : CacheState) : List CacheData :=
  match jsMapGet s.data key with
  | some ⟨_, .setV _ elems, _⟩ => elems
  | _ => []

open LocalCache

theorem jsMapGet_jsMapSet_self {α : Type} (m : List (String × α)) (k : String)
    (v : α) : jsMapGet (jsMapSet m k v) k = some v := by
  induction m with
  | nil => simp [jsMapSet, jsMapGet]
  | cons p rest ih =>
      obtain ⟨k', v'⟩ := p
      by_cases h : (k' == k)
      · simp [jsMapSet, jsMapGet, h]
      · simp only [Bool.not_eq_true] at h
        simp [jsMapSet, jsMapGet, h, ih]

theorem jsMapGet_jsMapSet_ne {α : Type} (m : List (String × α))
    (k k' : String) (v : α) (h : k ≠ k') :
    jsMapGet (jsMapSet m k v) k' = jsMapGet m k' := by
  induction m with
  | nil => simp [jsMapSet, jsMapGet, h]
  | cons p rest ih =>
      obtain ⟨k'', v''⟩ := p
      by_cases h2 : (k'' == k)
      · have hk : k'' = k := by simpa using h2
        subst hk
        simp [jsMapSet, jsMapGet, h2, h]
      · simp only [Bool.not_eq_true] at h2
        simp [jsMapSet, jsMapGet, h2, ih]

theorem jsMapGet_foldl_set_not_mem {α β : Type} (g : β → α)
    (l : List (String × β)) (m : List (String × α)) (k : String)
    (h : k ∉ l.map Prod.fst) :
    jsMapGet (l.foldl (fun acc kv => jsMapSet acc kv.1 (g kv.2)) m) k =
      jsMapGet m k := by
  revert h
  induction l generalizing m with
  | nil => intro h; rfl
  | cons kv rest ih =>
      intro h
      simp only [List.map_cons, List.mem_cons] at h
      push_neg at h
      simp only [List.foldl_cons]
      rw [ih (jsMapSet m kv.1 (g kv.2)) h.2]
      exact jsMapGet_jsMapSet_ne _ _ _ _ (fun he => h.1 he.symm)

theorem jsMapGet_foldl_set_mem {α β : Type} (g : β → α)
    (l : List (String × β)) (m : List (String × α)) (k : String) (v : β)
    (hnd : (l.map Prod.fst).Nodup) (hv : jsMapGet l k = some v) :
    jsMapGet (l.foldl (fun acc kv => jsMapSet acc kv.1 (g kv.2)) m) k =
      some (g v) := by
  revert hnd hv
  induction l generalizing m with
  | nil => intro hnd hv; simp [jsMapGet] at hv
  | cons kv rest ih =>
      intro hnd hv
      obtain ⟨k', v'⟩ := kv
      simp only [List.map_cons, List.nodup_cons] at hnd
      by_cases h : (k' == k)
      · have hk : k' = k := by simpa using h
        subst hk
        simp only [jsMapGet, beq_self_eq_true, if_true, Option.some.injEq] at hv
        subst hv
        simp only [List.foldl_cons]
        rw [jsMapGet_foldl_set_not_mem _ _ _ _ hnd.1]
        exact jsMapGet_jsMapSet_self _ _ _
      · simp only [Bool.not_eq_true] at h
        simp only [jsMapGet, h, Bool.false_eq_true, if_false] at hv
        simp only [List.foldl_cons]
        exact ih _ hnd.2 hv

theorem mSet_data (object : List (String × CacheData)) (s : CacheState) :
    (mSet object s).data =
      object.foldl
        (fun acc kv => jsMapSet acc kv.1 { ttl := 0, value := kv.2, timeout := none })
        s.data := by
  induction object generalizing s with
  | nil => rfl
  | cons kv rest ih => simp only [mSet, List.foldl_cons] at ih ⊢; exact ih _

theorem mSet_frame (object : List (String × CacheData)) (s : CacheState) :
    (mSet object s).pending = s.pending ∧
    (mSet object s).nextId = s.nextId ∧
    (mSet object s).nextRef = s.nextRef ∧
    (mSet object s).TTLdefault = s.TTLdefault := by
  induction object generalizing s with
  | nil => exact ⟨rfl, rfl, rfl, rfl⟩
  | cons kv rest ih => simpa only [mSet, List.foldl_cons] using ih _

/-- C1: the claim that every replacing operation (`set`, `mSet`, `hSet`,
`sAdd` type replacements) cancels the previously armed expiration
callback fails on the code: `set` never calls `clearTimeout` on the
entry it overwrites, so the stale timer stays armed and, when it fires,
deletes the key even though the overwriting `set` requested no
expiration.  Concretely: `set("k", 1, ttl 1)` then `set("k", 2, ttl 0)`
leaves timer id 0 pending, and firing it removes `"k"`. -/
theorem set_leaves_stale_timer :
    get "k" (set "k" (.num 2) 0 (set "k" (.num 1) 1 (mkCache none)))
        = some (.num 2) ∧
    getTTL "k" (set "k" (.num 2) 0 (set "k" (.num 1) 1 (mkCache none))) = 0 ∧
    (set "k" (.num 2) 0 (set "k" (.num 1) 1 (mkCache none))).pending
        = [(0, "k")] ∧
    get "k" (fireTimer 0
        (set "k" (.num 2) 0 (set "k" (.num 1) 1 (mkCache none)))) = none :=
  ⟨rfl, rfl, rfl, rfl⟩

/-- C3: `mSet` stores every pair of the mapping with ttl forced to `0`
and no timeout, arms no timer, and a subsequent `getTTL` on any stored
key returns `0`, whatever default ttl the store was built with. -/
theorem mSet_forces_zero_ttl (object : List (String × CacheData))
    (s : CacheState) (k : String) (v : CacheData)
    (hnd : (object.map Prod.fst).Nodup) (hv : jsMapGet object k = some v) :
    jsMapGet (mSet object s).data k
        = some { ttl := 0, value := v, timeout := none } ∧
    getTTL k (mSet object s) = 0 ∧
    (mSet object s).pending = s.pending := by
  have hdata :
      jsMapGet (mSet object s).data k
        = some { ttl := 0, value := v, timeout := none : Entry } := by
    rw [mSet_data]
    exact jsMapGet_foldl_set_mem
      (fun v => { ttl := 0, value := v, timeout := none : Entry })
      object s.data k v hnd hv
  refine ⟨hdata, ?_, (mSet_frame object s).1⟩
  simp [getTTL, hdata]

/-- Witness for C3 at a store with nonzero default ttl. -/
theorem mSet_forces_zero_ttl_witness :
    jsMapGet (mSet [("a", .num 1), ("b", .num 2)] (mkCache (some 300))).data "a"
        = some { ttl := 0, value := .num 1, timeout := none } ∧
    getTTL "a" (mSet [("a", .num 1), ("b", .num 2)] (mkCache (some 300))) = 0 ∧
    (mSet [("a", .num 1), ("b", .num 2)] (mkCache (some 300))).pending
        = (mkCache (some 300)).pending :=
  mSet_forces_zero_ttl [("a", .num 1), ("b", .num 2)] (mkCache (some 300))
    "a" (.num 1) (by decide) rfl

theorem persist_ok (s : CacheState) (k : String) (e : Entry)
    (h : jsMapGet s.data k = some e) :
    persist k s =
      .ok { jsClearTimeout e.timeout s with
            data := jsMapSet (jsClearTimeout e.timeout s).data k
                      { e with ttl := 0 } } := by
  simp [persist, h]

/-- C8: `persist` on a present key succeeds, zeroes the stored ttl and
removes the key's armed timer from the runtime table; a second `persist`
succeeds again and leaves the ttl at `0`; on an absent key it fails with
`InvalidKey` (the source's `Error("Invalid key")`). -/
theorem persist_spec :
    (∀ (s : CacheState) (k : String), jsMapGet s.data k = none →
        persist k s = .error .InvalidKey) ∧
    (∀ (s : CacheState) (k : String) (e : Entry), jsMapGet s.data k = some e →
        ∃ s', persist k s = .ok s' ∧ getTTL k s' = 0 ∧
          (∀ tid, e.timeout = some tid → ∀ p ∈ s'.pending, p.1 ≠ tid) ∧
          ∃ s'', persist k s' = .ok s'' ∧ getTTL k s'' = 0) := by
  constructor
  · intro s k h
    simp [persist, h]
  · intro s k e h
    have h1 : persist k s =
        .ok { jsClearTimeout e.timeout s with
              data := jsMapSet (jsClearTimeout e.timeout s).data k
                        { e with ttl := 0 } } := by
      simp [persist, h]
    refine ⟨_, h1, ?_, ?_, ?_⟩
    · simp [getTTL, jsMapGet_jsMapSet_self]
    · intro tid htid p hp
      simp only [jsClearTimeout, htid, List.mem_filter] at hp
      simpa using hp.2
    · have hself :
          jsMapGet
            (jsMapSet (jsClearTimeout e.timeout s).data k { e with ttl := 0 }) k
            = some { e with ttl := 0 } := jsMapGet_jsMapSet_self _ _ _
      have h2 := persist_ok
        { jsClearTimeout e.timeout s with
          data := jsMapSet (jsClearTimeout e.timeout s).data k
                    { e with ttl := 0 } }
        k { e with ttl := 0 } hself
      exact ⟨_, h2, by simp [getTTL, jsMapGet_jsMapSet_self]⟩

/-- Witness for C8: a key set with ttl 5 (timer id 0 armed), persisted;
and an absent key. -/
theorem persist_spec_witness :
    (∃ s', persist "k" (set "k" (.num 1) 5 (mkCache none)) = .ok s' ∧
        getTTL "k" s' = 0 ∧
        (∀ tid, (Entry.mk 5 (.num 1) (some 0)).timeout = some tid →
            ∀ p ∈ s'.pending, p.1 ≠ tid) ∧
        ∃ s'', persist "k" s' = .ok s'' ∧ getTTL "k" s'' = 0) ∧
    persist "q" (mkCache none) = .error .InvalidKey :=
  ⟨persist_spec.2 (set "k" (.num 1) 5 (mkCache none)) "k" ⟨5, .num 1, some 0⟩ rfl,
   persist_spec.1 (mkCache none) "q" rfl⟩

/-- C5: `lSet` fails `InvalidKey` on an absent key, `InvalidKeyType` on
a non-array value, and on a list of length `n` fails `OutOfIndex`
exactly when `index > n - 1`; any `index ≤ n - 1`, negative indices
included, is accepted. -/
theorem lSet_bounds :
    (∀ (s : CacheState) (k : String) (i : Int) (v : CacheData),
        jsMapGet s.data k = none → lSet k i v s = .error .InvalidKey) ∧
    (∀ (s : CacheState) (k : String) (i : Int) (v : CacheData) (e : Entry),
        jsMapGet s.data k = some e → e.value.isArr = false →
        lSet k i v s = .error .InvalidKeyType) ∧
    (∀ (s : CacheState) (k : String) (i : Int) (v : CacheData) (et : Int)
        (r : Nat) (l : List CacheData) (eto : Option Nat),
        jsMapGet s.data k = some ⟨et, .arr r l, eto⟩ →
        (lSet k i v s = .error .OutOfIndex ↔ (l.length : Int) - 1 < i) ∧
        (i ≤ (l.length : Int) - 1 → ∃ s', lSet k i v s = .ok s')) := by
  refine ⟨?_, ?_, ?_⟩
  · intro s k i v h
    simp [lSet, h]
  · intro s k i v e h hne
    obtain ⟨et, val, eto⟩ := e
    cases val
    case arr r l => simp [CacheData.isArr] at hne
    all_goals simp [lSet, h]
  · intro s k i v et r l eto h
    constructor
    · constructor
      · intro he
        by_cases hlt : (l.length : Int) - 1 < i
        · exact hlt
        · exfalso
          simp [lSet, h, hlt] at he
      · intro hlt
        simp [lSet, h, hlt]
    · intro hle
      have hlt : ¬ ((l.length : Int) - 1 < i) := by omega
      refine ⟨{ s with
                data := jsMapSet s.data k
                          ⟨et, .arr r (jsArraySet l i v), eto⟩ }, ?_⟩
      simp [lSet, h, hlt]

/-- Witness for C5 over the store holding list `[1, 2]` at "l" and the
scalar 7 at "n": out-of-range at 2, in-range at 1 and at the negative
index -3, and both error kinds. -/
theorem lSet_bounds_witness :
    lSet "x" 0 (.num 9) (lPush "l" [.num 1, .num 2]
        (set "n" (.num 7) 0 (mkCache none))) = .error .InvalidKey ∧
    lSet "n" 0 (.num 9) (lPush "l" [.num 1, .num 2]
        (set "n" (.num 7) 0 (mkCache none))) = .error .InvalidKeyType ∧
    (lSet "l" 2 (.num 9) (lPush "l" [.num 1, .num 2]
        (set "n" (.num 7) 0 (mkCache none))) = .error .OutOfIndex ↔
      (([(.num 1 : CacheData), .num 2].length : Int) - 1 < 2)) ∧
    ((1 : Int) ≤ ([(.num 1 : CacheData), .num 2].length : Int) - 1 →
      ∃ s', lSet "l" 1 (.num 9) (lPush "l" [.num 1, .num 2]
        (set "n" (.num 7) 0 (mkCache none))) = .ok s') ∧
    ((-3 : Int) ≤ ([(.num 1 : CacheData), .num 2].length : Int) - 1 →
      ∃ s', lSet "l" (-3) (.num 9) (lPush "l" [.num 1, .num 2]
        (set "n" (.num 7) 0 (mkCache none))) = .ok s') :=
  ⟨lSet_bounds.1 (lPush "l" [.num 1, .num 2] (set "n" (.num 7) 0 (mkCache none)))
      "x" 0 (.num 9) rfl,
   lSet_bounds.2.1 (lPush "l" [.num 1, .num 2] (set "n" (.num 7) 0 (mkCache none)))
      "n" 0 (.num 9) ⟨0, .num 7, none⟩ rfl rfl,
   (lSet_bounds.2.2 (lPush "l" [.num 1, .num 2] (set "n" (.num 7) 0 (mkCache none)))
      "l" 2 (.num 9) 0 0 [.num 1, .num 2] none rfl).1,
   (lSet_bounds.2.2 (lPush "l" [.num 1, .num 2] (set "n" (.num 7) 0 (mkCache none)))
      "l" 1 (.num 9) 0 0 [.num 1, .num 2] none rfl).2,
   (lSet_bounds.2.2 (lPush "l" [.num 1, .num 2] (set "n" (.num 7) 0 (mkCache none)))
      "l" (-3) (.num 9) 0 0 [.num 1, .num 2] none rfl).2⟩

/-- C6: `lPop` never throws; on a list value it drops the tail element
and changes nothing else, and on an absent key or non-list value it
returns the store unchanged. -/
theorem lPop_total_spec :
    (∀ (s : CacheState) (k : String),
        (∀ e, jsMapGet s.data k = some e → e.value.isArr = false) →
        lPop k s = s) ∧
    (∀ (s : CacheState) (k : String) (et : Int) (r : Nat)
        (l : List CacheData) (x : CacheData) (eto : Option Nat),
        jsMapGet s.data k = some ⟨et, .arr r (l ++ [x]), eto⟩ →
        lPop k s = { s with data := jsMapSet s.data k ⟨et, .arr r l, eto⟩ }) := by
  constructor
  · intro s k h
    unfold lPop
    cases hv : jsMapGet s.data k with
    | none => rfl
    | some e =>
        obtain ⟨et, val, eto⟩ := e
        cases val
        case arr r l => simpa [CacheData.isArr] using h _ hv
        all_goals rfl
  · intro s k et r l x eto h
    unfold lPop
    rw [h]
    simp

/-- Witness for C6: popping the list `[1, 2]` at "l" drops the 2; popping
the scalar key "n" and the absent key "x" changes nothing. -/
theorem lPop_total_spec_witness :
    lPop "n" (lPush "l" [.num 1, .num 2] (set "n" (.num 7) 0 (mkCache none)))
        = lPush "l" [.num 1, .num 2] (set "n" (.num 7) 0 (mkCache none)) ∧
    lPop "x" (lPush "l" [.num 1, .num 2] (set "n" (.num 7) 0 (mkCache none)))
        = lPush "l" [.num 1, .num 2] (set "n" (.num 7) 0 (mkCache none)) ∧
    lPop "l" (lPush "l" [.num 1, .num 2] (set "n" (.num 7) 0 (mkCache none)))
        = { lPush "l" [.num 1, .num 2] (set "n" (.num 7) 0 (mkCache none)) with
            data := jsMapSet (lPush "l" [.num 1, .num 2]
                      (set "n" (.num 7) 0 (mkCache none))).data "l"
                      ⟨0, .arr 0 [.num 1], none⟩ } :=
  ⟨lPop_total_spec.1 _ "n" (fun e he => by
      have h2 : some (⟨0, .num 7, none⟩ : Entry) = some e := he
      cases Option.some.inj h2
      rfl),
   lPop_total_spec.1 _ "x" (fun e he => Option.noConfusion he),
   lPop_total_spec.2 _ "l" 0 0 [.num 1] (.num 2) none rfl⟩

/-- C9: on a key holding a non-list value, `lPush` resets the value to a
fresh empty array and appends the values, but keeps the entry's recorded
ttl and timeout handle exactly as they were — no timer is cancelled,
armed or re-armed from the store default.  On an absent key it instead
creates the entry with the default ttl and arms a fresh timer whenever
that default is positive. -/
theorem lPush_non_list_frame :
    (∀ (s : CacheState) (k : String) (vs : List CacheData) (e : Entry),
        jsMapGet s.data k = some e → e.value.isArr = false →
        lPush k vs s =
          { s with nextRef := s.nextRef + 1,
                   data := jsMapSet s.data k
                             ⟨e.ttl, .arr s.nextRef vs, e.timeout⟩ }) ∧
    (∀ (s : CacheState) (k : String) (vs : List CacheData),
        jsMapGet s.data k = none →
        (lPush k vs s).pending =
          (if 0 < s.TTLdefault then s.pending ++ [(s.nextId, k)]
           else s.pending) ∧
        jsMapGet (lPush k vs s).data k =
          some ⟨s.TTLdefault, .arr s.nextRef vs,
                if 0 < s.TTLdefault then some s.nextId else none⟩) := by
  constructor
  · intro s k vs e h hne
    obtain ⟨et, val, eto⟩ := e
    unfold lPush
    rw [h]
    cases val
    case arr r l => simp [CacheData.isArr] at hne
    all_goals rfl
  · intro s k vs h
    unfold lPush
    rw [h]
    by_cases hd : s.TTLdefault ≤ 0
    · have hd2 : ¬ (0 < s.TTLdefault) := by omega
      simp [handleTTL, hd, hd2, jsMapGet_jsMapSet_self]
    · have hd2 : 0 < s.TTLdefault := by omega
      simp [handleTTL, hd, hd2, jsMapGet_jsMapSet_self]

/-- Witness for C9: pushing onto the scalar key "n" keeps ttl 8 and
timer id 0 untouched while resetting the value to the pushed list;
pushing onto the absent key "k" of a store with default ttl 10 arms a
fresh timer. -/
theorem lPush_non_list_frame_witness :
    lPush "n" [.num 1] (set "n" (.num 7) 8 (mkCache none)) =
      { set "n" (.num 7) 8 (mkCache none) with
        nextRef := (set "n" (.num 7) 8 (mkCache none)).nextRef + 1,
        data := jsMapSet (set "n" (.num 7) 8 (mkCache none)).data "n"
                  ⟨(Entry.mk 8 (.num 7) (some 0)).ttl,
                   .arr (set "n" (.num 7) 8 (mkCache none)).nextRef [.num 1],
                   (Entry.mk 8 (.num 7) (some 0)).timeout⟩ } ∧
    ((lPush "k" [.num 1] (mkCache (some 10))).pending =
        (if 0 < (mkCache (some 10)).TTLdefault then
          (mkCache (some 10)).pending ++ [((mkCache (some 10)).nextId, "k")]
         else (mkCache (some 10)).pending) ∧
      jsMapGet (lPush "k" [.num 1] (mkCache (some 10))).data "k" =
        some ⟨(mkCache (some 10)).TTLdefault,
              .arr (mkCache (some 10)).nextRef [.num 1],
              if 0 < (mkCache (some 10)).TTLdefault then
                some (mkCache (some 10)).nextId
              else none⟩) :=
  ⟨lPush_non_list_frame.1 (set "n" (.num 7) 8 (mkCache none)) "n" [.num 1]
      ⟨8, .num 7, some 0⟩ rfl rfl,
   lPush_non_list_frame.2 (mkCache (some 10)) "k" [.num 1] rfl⟩

/-- C10: on a list of length `n ≥ 1`, `lRemIndex` at a negative index
never throws (only the upper bound is checked); for `-n ≤ i ≤ -1` it
removes exactly the element at position `n + i`, and for `i < -n` it
removes the first element. -/
theorem lRemIndex_negative (s : CacheState) (k : String) (et : Int) (r : Nat)
    (l : List CacheData) (eto : Option Nat) (i : Int)
    (h : jsMapGet s.data k = some ⟨et, .arr r l, eto⟩)
    (hn : 1 ≤ l.length) (hi : i < 0) :
    ∃ s', lRemIndex k i s = .ok s' ∧
      jsMapGet s'.data k =
        some ⟨et, .arr r (l.eraseIdx ((l.length : Int) + i).toNat), eto⟩ ∧
      (i < -(l.length : Int) →
        l.eraseIdx ((l.length : Int) + i).toNat = l.tail) := by
  have hlt : ¬ ((l.length : Int) - 1 < i) := by omega
  have hsplice :
      jsSpliceRemoveOne l i = l.eraseIdx ((l.length : Int) + i).toNat := by
    unfold jsSpliceRemoveOne
    simp only [if_pos hi]
    rcases le_or_lt 0 ((l.length : Int) + i) with hc | hc
    · rw [max_eq_left hc]
    · rw [max_eq_right hc.le, Int.toNat_of_nonpos hc.le]
      rfl
  refine ⟨{ s with
            data := jsMapSet s.data k
                      ⟨et, .arr r (jsSpliceRemoveOne l i), eto⟩ }, ?_, ?_, ?_⟩
  · simp [lRemIndex, h, hlt]
  · rw [jsMapGet_jsMapSet_self, hsplice]
  · intro hfar
    have h0 : ((l.length : Int) + i).toNat = 0 := by omega
    rw [h0]
    cases l with
    | nil => simp at hn
    | cons a rest => rfl

/-- Witness for C10 on the list `[1, 2, 3]`: index -1 removes the last
element, index -5 (below `-n`) removes the first. -/
theorem lRemIndex_negative_witness :
    (∃ s', lRemIndex "l" (-1)
        (lPush "l" [.num 1, .num 2, .num 3] (mkCache none)) = .ok s' ∧
      jsMapGet s'.data "l" =
        some ⟨0, .arr 0 ([(.num 1 : CacheData), .num 2, .num 3].eraseIdx
          (([(.num 1 : CacheData), .num 2, .num 3].length : Int) + -1).toNat),
          none⟩ ∧
      ((-1 : Int) < -([(.num 1 : CacheData), .num 2, .num 3].length : Int) →
        [(.num 1 : CacheData), .num 2, .num 3].eraseIdx
          (([(.num 1 : CacheData), .num 2, .num 3].length : Int) + -1).toNat =
          [(.num 1 : CacheData), .num 2, .num 3].tail)) ∧
    (∃ s', lRemIndex "l" (-5)
        (lPush "l" [.num 1, .num 2, .num 3] (mkCache none)) = .ok s' ∧
      jsMapGet s'.data "l" =
        some ⟨0, .arr 0 ([(.num 1 : CacheData), .num 2, .num 3].eraseIdx
          (([(.num 1 : CacheData), .num 2, .num 3].length : Int) + -5).toNat),
          none⟩ ∧
      ((-5 : Int) < -([(.num 1 : CacheData), .num 2, .num 3].length : Int) →
        [(.num 1 : CacheData), .num 2, .num 3].eraseIdx
          (([(.num 1 : CacheData), .num 2, .num 3].length : Int) + -5).toNat =
          [(.num 1 : CacheData), .num 2, .num 3].tail)) :=
  ⟨lRemIndex_negative (lPush "l" [.num 1, .num 2, .num 3] (mkCache none))
      "l" 0 0 [.num 1, .num 2, .num 3] none (-1) rfl (by decide) (by decide),
   lRemIndex_negative (lPush "l" [.num 1, .num 2, .num 3] (mkCache none))
      "l" 0 0 [.num 1, .num 2, .num 3] none (-5) rfl (by decide) (by decide)⟩

theorem handleTTL_nonpos (key : String) (ttl : Int) (s : CacheState)
    (h : ttl ≤ 0) : handleTTL key ttl s = (none, s) := by
  unfold handleTTL
  rw [if_pos h]

theorem handleTTL_pos (key : String) (ttl : Int) (s : CacheState)
    (h : 0 < ttl) :
    handleTTL key ttl s =
      (some s.nextId,
       { s with pending := s.pending ++ [(s.nextId, key)],
                nextId := s.nextId + 1 }) := by
  unfold handleTTL
  rw [if_neg (not_le.mpr h)]

/-- C4: `hSet` on an absent or non-Hashmap key installs a fresh entry
whose map is the fields merged into an empty map, with ttl `ttl` and a
timer exactly when `ttl > 0`; on an existing Hashmap it merges the
fields into the stored map keeping ttl and timer; unnamed fields are
preserved, named fields are overwritten; and the two-step scenario
yields the merged hashmap `{x:1, y:2}`. -/
theorem hSet_merge :
    (∀ (s : CacheState) (k : String) (fields : List (String × CacheData))
        (ttl : Int),
        (∀ e, jsMapGet s.data k = some e → ∀ r m, e.value ≠ .hmap r m) →
        jsMapGet (hSet k fields ttl s).data k =
          some ⟨ttl,
                .hmap s.nextRef
                  (fields.foldl (fun acc fv => jsMapSet acc fv.1 fv.2) []),
                if 0 < ttl then some s.nextId else none⟩) ∧
    (∀ (s : CacheState) (k : String) (fields : List (String × CacheData))
        (ttl et : Int) (r : Nat) (m : List (String × CacheData))
        (eto : Option Nat),
        jsMapGet s.data k = some ⟨et, .hmap r m, eto⟩ →
        jsMapGet (hSet k fields ttl s).data k =
          some ⟨et,
                .hmap r (fields.foldl (fun acc fv => jsMapSet acc fv.1 fv.2) m),
                eto⟩) ∧
    (∀ (s : CacheState) (k : String) (fields : List (String × CacheData))
        (ttl et : Int) (r : Nat) (m : List (String × CacheData))
        (eto : Option Nat) (f : String),
        jsMapGet s.data k = some ⟨et, .hmap r m, eto⟩ →
        f ∉ fields.map Prod.fst →
        hGet k f (hSet k fields ttl s) = hGet k f s) ∧
    (∀ (s : CacheState) (k : String) (fields : List (String × CacheData))
        (ttl : Int) (f : String) (v : CacheData),
        (fields.map Prod.fst).Nodup → jsMapGet fields f = some v →
        hGet k f (hSet k fields ttl s) = some v) ∧
    hGetAll "h" (hSet "h" [("y", .num 2)] 0 (hSet "h" [("x", .num 1)] 0
        (mkCache none)))
      = some [("x", .num 1), ("y", .num 2)] := by
  have freshCase : ∀ (s : CacheState) (k : String)
      (fields : List (String × CacheData)) (ttl : Int),
      (∀ e, jsMapGet s.data k = some e → ∀ r m, e.value ≠ .hmap r m) →
      jsMapGet (hSet k fields ttl s).data k =
        some ⟨ttl,
              .hmap s.nextRef
                (fields.foldl (fun acc fv => jsMapSet acc fv.1 fv.2) []),
              if 0 < ttl then some s.nextId else none⟩ := by
    intro s k fields ttl hne
    unfold hSet
    cases hv : jsMapGet s.data k with
    | none =>
        rcases le_or_lt ttl 0 with h0 | h0
        · simp [handleTTL_nonpos k ttl s h0, not_lt.mpr h0,
                jsMapGet_jsMapSet_self]
        · simp [handleTTL_pos k ttl s h0, h0, jsMapGet_jsMapSet_self]
    | some e =>
        obtain ⟨et, val, eto⟩ := e
        cases val
        case hmap r m => exact absurd rfl (hne _ hv r m)
        all_goals rcases le_or_lt ttl 0 with h0 | h0
        all_goals
          first
          | simp [handleTTL_nonpos k ttl s h0, not_lt.mpr h0,
                  jsMapGet_jsMapSet_self]
          | simp [handleTTL_pos k ttl s h0, h0, jsMapGet_jsMapSet_self]
  have mapCase : ∀ (s : CacheState) (k : String)
      (fields : List (String × CacheData)) (ttl et : Int) (r : Nat)
      (m : List (String × CacheData)) (eto : Option Nat),
      jsMapGet s.data k = some ⟨et, .hmap r m, eto⟩ →
      jsMapGet (hSet k fields ttl s).data k =
        some ⟨et,
              .hmap r (fields.foldl (fun acc fv => jsMapSet acc fv.1 fv.2) m),
              eto⟩ := by
    intro s k fields ttl et r m eto hv
    unfold hSet
    rw [hv]
    exact jsMapGet_jsMapSet_self _ _ _
  refine ⟨freshCase, mapCase, ?_, ?_, ?_⟩
  · intro s k fields ttl et r m eto f hv hnot
    rw [hGet, hGet, hv, mapCase s k fields ttl et r m eto hv]
    exact jsMapGet_foldl_set_not_mem (fun v => v) fields m f hnot
  · intro s k fields ttl f v hnd hf
    cases hv : jsMapGet s.data k with
    | none =>
        have h1 := freshCase s k fields ttl
          (fun e he => by rw [hv] at he; cases he)
        rw [hGet, h1]
        exact jsMapGet_foldl_set_mem (fun v => v) fields [] f v hnd hf
    | some e =>
        obtain ⟨et, val, eto⟩ := e
        by_cases hh : ∃ r m, val = CacheData.hmap r m
        · obtain ⟨r, m, rfl⟩ := hh
          rw [hGet, mapCase s k fields ttl et r m eto hv]
          exact jsMapGet_foldl_set_mem (fun v => v) fields m f v hnd hf
        · have h1 := freshCase s k fields ttl
            (fun e he => by
              rw [hv] at he
              cases he
              intro r m hm
              exact hh ⟨r, m, hm⟩)
          rw [hGet, h1]
          exact jsMapGet_foldl_set_mem (fun v => v) fields [] f v hnd hf
  · rfl

/-- Witness for C4: the fresh-install case on an absent key with a
positive ttl, the merge cases on an existing hashmap, and the overwrite
case. -/
theorem hSet_merge_witness :
    jsMapGet (hSet "h" [("x", .num 1)] 7 (mkCache none)).data "h" =
      some ⟨7,
            .hmap (mkCache none).nextRef
              ([(("x" : String), CacheData.num 1)].foldl
                (fun acc fv => jsMapSet acc fv.1 fv.2) []),
            if 0 < (7 : Int) then some (mkCache none).nextId else none⟩ ∧
    jsMapGet (hSet "h" [("y", .num 2)] 0
        (hSet "h" [("x", .num 1)] 0 (mkCache none))).data "h" =
      some ⟨0,
            .hmap 0
              ([(("y" : String), CacheData.num 2)].foldl
                (fun acc fv => jsMapSet acc fv.1 fv.2) [("x", .num 1)]),
            none⟩ ∧
    hGet "h" "x" (hSet "h" [("y", .num 2)]
        0 (hSet "h" [("x", .num 1)] 0 (mkCache none))) =
      hGet "h" "x" (hSet "h" [("x", .num 1)] 0 (mkCache none)) ∧
    hGet "h" "y" (hSet "h" [("y", .num 2)]
        0 (hSet "h" [("x", .num 1)] 0 (mkCache none))) = some (.num 2) :=
  ⟨hSet_merge.1 (mkCache none) "h" [("x", .num 1)] 7
      (fun e he => Option.noConfusion he),
   hSet_merge.2.1 (hSet "h" [("x", .num 1)] 0 (mkCache none)) "h"
      [("y", .num 2)] 0 0 0 [("x", .num 1)] none rfl,
   hSet_merge.2.2.1 (hSet "h" [("x", .num 1)] 0 (mkCache none)) "h"
      [("y", .num 2)] 0 0 0 [("x", .num 1)] none "x" rfl (by decide),
   hSet_merge.2.2.2.1 (hSet "h" [("x", .num 1)] 0 (mkCache none)) "h"
      [("y", .num 2)] 0 "y" (.num 2) (by decide) rfl⟩

theorem sameValueZero_refl (a : CacheData) : sameValueZero a a = true := by
  cases a <;> simp [sameValueZero]

theorem any_svz_jsSetAdd_mono (elems : List CacheData) (m x : CacheData)
    (h : elems.any (fun e => sameValueZero e x) = true) :
    (jsSetAdd elems m).any (fun e => sameValueZero e x) = true := by
  unfold jsSetAdd
  split
  · exact h
  · simp only [List.any_append, h, Bool.true_or]

theorem any_svz_jsSetAdd_self (elems : List CacheData) (m : CacheData) :
    (jsSetAdd elems m).any (fun e => sameValueZero e m) = true := by
  unfold jsSetAdd
  split
  case isTrue h => exact h
  case isFalse h => simp [List.any_append, sameValueZero_refl]

theorem any_svz_foldl_preserve (ms : List CacheData)
    (elems : List CacheData) (x : CacheData)
    (h : elems.any (fun e => sameValueZero e x) = true) :
    (ms.foldl jsSetAdd elems).any (fun e => sameValueZero e x) = true := by
  induction ms generalizing elems with
  | nil => exact h
  | cons a rest ih => exact ih _ (any_svz_jsSetAdd_mono elems a x h)

theorem any_svz_foldl_mem (ms : List CacheData) (elems : List CacheData)
    (m : CacheData) (hm : m ∈ ms) :
    (ms.foldl jsSetAdd elems).any (fun e => sameValueZero e m) = true := by
  induction ms generalizing elems with
  | nil => cases hm
  | cons a rest ih =>
      rcases List.mem_cons.mp hm with rfl | hmem
      · exact any_svz_foldl_preserve rest _ m (any_svz_jsSetAdd_self elems m)
      · exact ih (jsSetAdd elems a) hmem

theorem jsSetAdd_pairwise (elems : List CacheData) (m : CacheData)
    (h : List.Pairwise (fun a b => sameValueZero a b = false) elems) :
    List.Pairwise (fun a b => sameValueZero a b = false) (jsSetAdd elems m) := by
  unfold jsSetAdd
  split
  case isTrue _ => exact h
  case isFalse hany =>
      rw [List.pairwise_append]
      refine ⟨h, List.pairwise_singleton _ _, ?_⟩
      intro a ha b hb
      simp only [List.mem_singleton] at hb
      subst hb
      simp only [List.any_eq_true, not_exists, not_and,
                 Bool.not_eq_true] at hany
      exact hany a ha

theorem foldl_jsSetAdd_pairwise (ms : List CacheData)
    (elems : List CacheData)
    (h : List.Pairwise (fun a b => sameValueZero a b = false) elems) :
    List.Pairwise (fun a b => sameValueZero a b = false)
      (ms.foldl jsSetAdd elems) := by
  induction ms generalizing elems with
  | nil => exact h
  | cons a rest ih => exact ih _ (jsSetAdd_pairwise elems a h)

theorem storedSetElems_sAdd (s : CacheState) (k : String)
    (ms : List CacheData) :
    storedSetElems k (sAdd k ms s) =
      ms.foldl jsSetAdd (storedSetElems k s) := by
  unfold sAdd storedSetElems
  cases hv : jsMapGet s.data k with
  | none => simp [jsMapGet_jsMapSet_self]
  | some e =>
      obtain ⟨et, val, eto⟩ := e
      cases val <;> simp [jsMapGet_jsMapSet_self]

theorem sIsMember_eq_any (s : CacheState) (k : String) (m : CacheData) :
    sIsMember k m s =
      (storedSetElems k s).any (fun e => sameValueZero e m) := by
  unfold sIsMember storedSetElems
  cases hv : jsMapGet s.data k with
  | none => rfl
  | some e =>
      obtain ⟨et, val, eto⟩ := e
      cases val <;> rfl

/-- C2 counterexample: two distinct arrays with equal contents are equal
under the spec's deep value comparison, yet `sAdd` stores both (two set
slots), and `sIsMember` with a third deeply-equal array answers false —
the runtime `Set` compares by SameValueZero (reference identity for
compound values), not by deep value. -/
theorem sAdd_deep_equality_cex :
    specDeepValueEq (.arr 0 [.num 1]) (.arr 1 [.num 1]) = true ∧
    storedSetElems "s"
        (sAdd "s" [.arr 0 [.num 1], .arr 1 [.num 1]] (mkCache none))
      = [.arr 0 [.num 1], .arr 1 [.num 1]] ∧
    specDeepValueEq (.arr 2 [.num 1]) (.arr 0 [.num 1]) = true ∧
    sIsMember "s" (.arr 2 [.num 1])
        (sAdd "s" [.arr 0 [.num 1], .arr 1 [.num 1]] (mkCache none))
      = false :=
  ⟨by decide, rfl, by decide, rfl⟩

/-- C2 amended: `sIsMember` is false on an absent key or non-Set value;
on a Set it is a SameValueZero membership test over the stored slots;
`sAdd` deduplicates by SameValueZero (primitives by value, compound
values by reference identity), every added member is subsequently a
member under that relation, and pairwise SameValueZero-distinctness of
the slots is preserved. -/
theorem sAdd_sameValueZero_spec :
    (∀ (s : CacheState) (k : String) (m : CacheData) (e : Entry),
        jsMapGet s.data k = some e → (∀ r el, e.value ≠ .setV r el) →
        sIsMember k m s = false) ∧
    (∀ (s : CacheState) (k : String) (m : CacheData),
        jsMapGet s.data k = none → sIsMember k m s = false) ∧
    (∀ (s : CacheState) (k : String) (m : CacheData),
        sIsMember k m s = true ↔
          ∃ e ∈ storedSetElems k s, sameValueZero e m = true) ∧
    (∀ (s : CacheState) (k : String) (ms : List CacheData) (m : CacheData),
        m ∈ ms → sIsMember k m (sAdd k ms s) = true) ∧
    (∀ (s : CacheState) (k : String) (ms : List CacheData),
        List.Pairwise (fun a b => sameValueZero a b = false)
          (storedSetElems k s) →
        List.Pairwise (fun a b => sameValueZero a b = false)
          (storedSetElems k (sAdd k ms s))) := by
  refine ⟨?_, ?_, ?_, ?_, ?_⟩
  · intro s k m e hv hne
    unfold sIsMember
    rw [hv]
    obtain ⟨et, val, eto⟩ := e
    cases val
    case setV r el => exact absurd rfl (hne r el)
    all_goals rfl
  · intro s k m hv
    unfold sIsMember
    rw [hv]
  · intro s k m
    rw [sIsMember_eq_any, List.any_eq_true]
  · intro s k ms m hm
    rw [sIsMember_eq_any, storedSetElems_sAdd]
    exact any_svz_foldl_mem ms _ m hm
  · intro s k ms h
    rw [storedSetElems_sAdd]
    exact foldl_jsSetAdd_pairwise ms _ h

/-- Witness for C2's amended claim: a numeric set, a scalar key, an
absent key, membership after adding, and preserved distinctness. -/
theorem sAdd_sameValueZero_spec_witness :
    sIsMember "n" (.num 1) (set "n" (.num 7) 0 (mkCache none)) = false ∧
    sIsMember "x" (.num 1) (mkCache none) = false ∧
    (sIsMember "s" (.num 2) (sAdd "s" [.num 1, .num 1, .num 2] (mkCache none))
        = true ↔
      ∃ e ∈ storedSetElems "s"
          (sAdd "s" [.num 1, .num 1, .num 2] (mkCache none)),
        sameValueZero e (.num 2) = true) ∧
    sIsMember "s" (.num 1) (sAdd "s" [.num 1, .num 1, .num 2] (mkCache none))
        = true ∧
    List.Pairwise (fun a b => sameValueZero a b = false)
      (storedSetElems "s" (sAdd "s" [.num 1, .num 1, .num 2] (mkCache none))) :=
  ⟨sAdd_sameValueZero_spec.1 (set "n" (.num 7) 0 (mkCache none)) "n" (.num 1)
      ⟨0, .num 7, none⟩ rfl (fun r el h => CacheData.noConfusion h),
   sAdd_sameValueZero_spec.2.1 (mkCache none) "x" (.num 1) rfl,
   sAdd_sameValueZero_spec.2.2.1
      (sAdd "s" [.num 1, .num 1, .num 2] (mkCache none)) "s" (.num 2),
   sAdd_sameValueZero_spec.2.2.2.1 (mkCache none) "s" [.num 1, .num 1, .num 2]
      (.num 1) (by simp),
   sAdd_sameValueZero_spec.2.2.2.2 (mkCache none) "s" [.num 1, .num 1, .num 2]
      List.Pairwise.nil⟩

theorem globMatch_star_iff (ps ks : List Char) :
    globMatch ('*' :: ps) ks = true ↔
      ∃ pre post, ks = pre ++ post ∧
        (∀ c ∈ pre, isLineTerm c = false) ∧ globMatch ps post = true := by
  induction ks with
  | nil =>
      have h1 : globMatch ('*' :: ps) [] = globMatch ps [] := by
        simp [globMatch]
      rw [h1]
      constructor
      · intro h
        exact ⟨[], [], rfl, fun c hc => absurd hc (List.not_mem_nil c), h⟩
      · rintro ⟨pre, post, heq, hpre, h⟩
        obtain ⟨rfl, rfl⟩ := List.append_eq_nil.mp heq.symm
        exact h
  | cons k ks ih =>
      have h2 : globMatch ('*' :: ps) (k :: ks)
          = (globMatch ps (k :: ks) ||
             (!(isLineTerm k) && globMatch ('*' :: ps) ks)) := by
        simp [globMatch]
      rw [h2]
      simp only [Bool.or_eq_true, Bool.and_eq_true, Bool.not_eq_true']
      constructor
      · rintro (h | ⟨hk, h⟩)
        · exact ⟨[], k :: ks, rfl, fun c hc => absurd hc (List.not_mem_nil c), h⟩
        · obtain ⟨pre, post, rfl, hpre, hpost⟩ := ih.mp h
          refine ⟨k :: pre, post, rfl, ?_, hpost⟩
          intro c hc
          rcases List.mem_cons.mp hc with rfl | hc2
          · exact hk
          · exact hpre c hc2
      · rintro ⟨pre, post, heq, hpre, hpost⟩
        cases pre with
        | nil =>
            simp only [List.nil_append] at heq
            subst heq
            exact Or.inl hpost
        | cons c pre' =>
            simp only [List.cons_append, List.cons.injEq] at heq
            obtain ⟨rfl, rfl⟩ := heq
            refine Or.inr ⟨hpre k (List.mem_cons_self k pre'), ?_⟩
            exact ih.mpr
              ⟨pre', post, rfl,
               fun d hd => hpre d (List.mem_cons_of_mem _ hd), hpost⟩

theorem LineGlobMatch_cons_inv {p : Char} {ps ks : List Char}
    (h : LineGlobMatch (p :: ps) ks) (hp : p ≠ '*') :
    ∃ ks', ks = p :: ks' ∧ LineGlobMatch ps ks' := by
  cases h with
  | lit hne h2 => exact ⟨_, rfl, h2⟩
  | star hpre h2 => exact absurd rfl hp

theorem globMatch_iff_lineGlob (ps : List Char) :
    ∀ ks, globMatch ps ks = true ↔ LineGlobMatch ps ks := by
  induction ps with
  | nil =>
      intro ks
      cases ks with
      | nil =>
          constructor
          · intro _; exact .nil
          · intro _; simp [globMatch]
      | cons k ks =>
          constructor
          · intro h
            exact absurd h (by simp [globMatch])
          · intro h
            cases h
  | cons p ps ih =>
      intro ks
      by_cases hp : p = '*'
      · subst hp
        rw [globMatch_star_iff]
        constructor
        · rintro ⟨pre, post, rfl, hpre, h⟩
          exact LineGlobMatch.star hpre ((ih post).mp h)
        · intro h
          cases h with
          | lit hne h2 => exact absurd rfl hne
          | star hpre h2 => exact ⟨_, _, rfl, hpre, (ih _).mpr h2⟩
      · cases ks with
        | nil =>
            have h3 : globMatch (p :: ps) [] = (p == '*' && globMatch ps []) := by
              simp [globMatch]
            rw [h3]
            constructor
            · intro h
              rw [Bool.and_eq_true, beq_iff_eq] at h
              exact absurd h.1 hp
            · intro h
              obtain ⟨ks', hks, -⟩ := LineGlobMatch_cons_inv h hp
              cases hks
        | cons k ks =>
            have h4 : globMatch (p :: ps) (k :: ks)
                = (p == k && globMatch ps ks) := by
              simp [globMatch, hp]
            rw [h4, Bool.and_eq_true, beq_iff_eq]
            constructor
            · rintro ⟨rfl, h⟩
              exact LineGlobMatch.lit hp ((ih ks).mp h)
            · intro h
              obtain ⟨ks', hks, h2⟩ := LineGlobMatch_cons_inv h hp
              injection hks with h5 h6
              subst h6
              exact ⟨h5.symm, (ih ks).mpr h2⟩

/-- C7, as stated, is false on keys containing line terminators: the key
"a\nb" is present and the any-substring glob reading of the pattern
"a*b" matches it (witnessed in `SpecGlobMatch`), but the regexp `scan`
builds turns `*` into an unflagged dot-star, which refuses the newline,
so the key is omitted from the result. -/
theorem scan_omits_newline_key :
    existsKey "a\nb" (set "a\nb" (.num 1) 0 (mkCache none)) = true ∧
    SpecGlobMatch "a*b".toList "a\nb".toList ∧
    scan "a*b" (set "a\nb" (.num 1) 0 (mkCache none)) = [] := by
  refine ⟨rfl, ?_, ?_⟩
  · exact SpecGlobMatch.lit (by decide)
      (@SpecGlobMatch.star ['b'] ['\n'] ['b']
        (SpecGlobMatch.lit (by decide) SpecGlobMatch.nil))
  · have hkeys : ((set "a\nb" (.num 1) 0 (mkCache none)).data.map Prod.fst)
        = ["a\nb"] := rfl
    unfold scan
    rw [hkeys]
    simp [globMatch, isLineTerm]

/-- C7 amended: `scan pattern` returns, without duplicates or omissions,
exactly the present keys matching the pattern as a glob in which `*`
matches any substring free of line terminators (newline, carriage
return, U+2028, U+2029 — the characters the unflagged regexp dot
refuses) and every other character stands for itself; on the spec's own
example the result is exactly ["users:1", "users:2"]. -/
theorem scan_line_glob_spec :
    (∀ (s : CacheState) (pattern : String),
        (s.data.map Prod.fst).Nodup →
        (scan pattern s).Nodup ∧
        ∀ k, k ∈ scan pattern s ↔
          (k ∈ s.data.map Prod.fst ∧
           LineGlobMatch pattern.toList k.toList)) ∧
    scan "users:*"
        (mSet [("users:1", .num 1), ("users:2", .num 2), ("admins:1", .num 3)]
          (mkCache none))
      = ["users:1", "users:2"] := by
  constructor
  · intro s pattern hnd
    constructor
    · exact List.Nodup.filter _ hnd
    · intro k
      unfold scan
      rw [List.mem_filter, globMatch_iff_lineGlob pattern.toList k.toList]
  · have hkeys :
        ((mSet [("users:1", CacheData.num 1), ("users:2", .num 2),
                ("admins:1", .num 3)] (mkCache none)).data.map Prod.fst)
          = ["users:1", "users:2", "admins:1"] := rfl
    unfold scan
    rw [hkeys]
    simp [globMatch, isLineTerm, List.filter]

/-- Witness for C7's amended claim on the three-key example store. -/
theorem scan_line_glob_spec_witness :
    (scan "users:*"
        (mSet [("users:1", .num 1), ("users:2", .num 2), ("admins:1", .num 3)]
          (mkCache none))).Nodup ∧
    ("users:1" ∈ scan "users:*"
        (mSet [("users:1", .num 1), ("users:2", .num 2), ("admins:1", .num 3)]
          (mkCache none)) ↔
      ("users:1" ∈ (mSet [("users:1", CacheData.num 1), ("users:2", .num 2),
            ("admins:1", .num 3)] (mkCache none)).data.map Prod.fst ∧
        LineGlobMatch "users:*".toList "users:1".toList)) :=
  ⟨(scan_line_glob_spec.1
      (mSet [("users:1", .num 1), ("users:2", .num 2), ("admins:1", .num 3)]
        (mkCache none)) "users:*" (by decide)).1,
   (scan_line_glob_spec.1
      (mSet [("users:1", .num 1), ("users:2", .num 2), ("admins:1", .num 3)]
        (mkCache none)) "users:*" (by decide)).2 "users:1"⟩
